import Mathlib

/-
Verification of the pip-search-two command-line client
(src/pip_search_two/main.py) against its specification.

The program is embedded shallowly: the network layer is abstracted into
outcome types (`ListingOutcome`, `HttpOutcome`) and every Python function
becomes a total Lean function over those outcomes.  Python strings are
modelled as Lean `String`s, with the relevant Python primitives
(`str.lower`, `str.split`, `str.strip`, substring containment `in`,
lexicographic comparison, list slicing `xs[:n]`, stable `sort`)
re-implemented over the underlying `List Char` so that everything
computes by kernel reduction.
-/

/-! ## Python string primitives -/

/-- Embedding of Python `str.lower()` (ASCII case folding, as exercised by
the program's inputs): lowercase every character. -/
def lowerStr (s : String) : String := ⟨s.data.map Char.toLower⟩

/-- Embedding of Python's substring test `needle in hay` on strings,
over the underlying character lists: `needle` occurs contiguously in
`hay`. -/
def subList : List Char → List Char → Bool
  | n, [] => n.isEmpty
  | n, c :: rest => n.isPrefixOf (c :: rest) || subList n rest

/-- Embedding of Python string comparison `a <= b`: lexicographic by code
point, a proper prefix being smaller. -/
def lexLe : List Char → List Char → Bool
  | [], _ => true
  | _ :: _, [] => false
  | a :: as, b :: bs => if a < b then true else if b < a then false else lexLe as bs

/-- Helper for the embedding of Python `str.split()`: accumulate the
current (reversed) word while scanning, emitting a word at each maximal
non-whitespace run. -/
def splitWsAux : List Char → List Char → List (List Char)
  | [], acc => if acc.isEmpty then [] else [acc.reverse]
  | c :: cs, acc =>
    if c.isWhitespace then
      (if acc.isEmpty then splitWsAux cs [] else acc.reverse :: splitWsAux cs [])
    else splitWsAux cs (c :: acc)

/-- Embedding of `term.lower().split()` from `search_packages` (main.py
line 43): the lowercased query words, split on whitespace runs with no
empty words produced. -/
def wordsOf (term : String) : List String :=
  (splitWsAux (lowerStr term).data []).map fun l => ⟨l⟩

/-- Embedding of `' '.join(args.search_terms)` (main.py line 107). -/
def joinSpaces (ts : List String) : String := String.intercalate " " ts

/-- Embedding of Python `str.strip()`: drop whitespace from both ends. -/
def pyStrip (s : String) : String :=
  ⟨((s.data.dropWhile Char.isWhitespace).reverse.dropWhile Char.isWhitespace).reverse⟩

/-- Embedding of Python slicing `s[:n]` on strings for a nonnegative
bound: keep the first `n` characters. -/
def strTakeN (s : String) (n : Nat) : String := ⟨s.data.take n⟩

/-- Embedding of Python slicing `xs[:n]` on lists for an `int` bound `n`,
including the negative case, where Python keeps the first
`max(len(xs) + n, 0)` elements. -/
def pySliceTo (xs : List String) (n : Int) : List String :=
  if 0 ≤ n then xs.take n.toNat else xs.take (xs.length - (-n).toNat)

/-! ## The ranking algorithm of `search_packages` (main.py lines 43-71) -/

/-- Match test in the single-word branch (main.py line 47): the one query
word occurs in the lowercased package name. -/
def singleMatch (term pkg : String) : Bool :=
  subList ((wordsOf term).headD "").data (lowerStr pkg).data

/-- Match test in the multi-word branch (main.py line 53): at least one
query word occurs in the lowercased package name (logical OR). -/
def multiMatch (term pkg : String) : Bool :=
  (wordsOf term).any fun w => subList w.data (lowerStr pkg).data

/-- The candidate list `matches` (main.py lines 45-54), branching on the
number of query words exactly as the source does. -/
def matchesOf (packages : List String) (term : String) : List String :=
  if (wordsOf term).length = 1 then packages.filter (singleMatch term)
  else packages.filter (multiMatch term)

/-- Exactness test `pkg.lower() == term.lower()` (main.py line 57). -/
def isExact (term pkg : String) : Bool := lowerStr pkg == lowerStr term

/-- The `exact_matches` bucket (main.py line 57), in candidate-list
order. -/
def exactOf (packages : List String) (term : String) : List String :=
  (matchesOf packages term).filter (isExact term)

/-- The unsorted non-exact bucket before sorting (main.py lines 66 and
69). -/
def nonExactRaw (packages : List String) (term : String) : List String :=
  (matchesOf packages term).filter fun pkg => !(isExact term pkg)

/-- The multi-word score `match_score` (main.py lines 61-64): the number
of entries of `search_words` (counted with multiplicity, as Python's
`sum` over the word list does) occurring in the lowercased name. -/
def score (ws : List String) (pkg : String) : Nat :=
  (ws.filter fun w => subList w.data (lowerStr pkg).data).length

/-- The sort order induced by Python's key `(-score, pkg.lower())`
(main.py line 64), as a Boolean comparator: higher score first, ties by
ascending lowercased name. -/
def multiLeB (ws : List String) (a b : String) : Bool :=
  decide (score ws b < score ws a) ||
    ((score ws a == score ws b) && lexLe (lowerStr a).data (lowerStr b).data)

/-- The multi-word sort order as a relation, for use with
`List.insertionSort`. -/
def rMulti (ws : List String) (a b : String) : Prop := multiLeB ws a b = true

instance (ws : List String) : DecidableRel (rMulti ws) := fun a b =>
  inferInstanceAs (Decidable (multiLeB ws a b = true))

/-- Python's default string order on names, as a relation: the order used
by `sorted(...)` in the single-word branch (main.py line 69). -/
def pyStrLe (a b : String) : Prop := lexLe a.data b.data = true

instance : DecidableRel pyStrLe := fun a b =>
  inferInstanceAs (Decidable (lexLe a.data b.data = true))

/-- The sorted non-exact bucket (main.py lines 60-69): multi-word queries
sort by `(-score, lowercased name)`, single-word queries (and the
degenerate empty-word case) use Python's plain `sorted`. -/
def nonExactSorted (packages : List String) (term : String) : List String :=
  if 1 < (wordsOf term).length then
    List.insertionSort (rMulti (wordsOf term)) (nonExactRaw packages term)
  else
    List.insertionSort pyStrLe (nonExactRaw packages term)

/-- The full ranking returned by `search_packages` (main.py line 71),
given the package names extracted from the listing: exact matches first,
then the sorted non-exact bucket. -/
def rank (packages : List String) (term : String) : List String :=
  exactOf packages term ++ nonExactSorted packages term

/-! ## The metadata lookup `get_package_info` (main.py lines 14-29) -/

/-- The fixed placeholder description (main.py lines 20, 25, 27, 29). -/
def placeholder : String := "No description available"

/-- Shape of the parsed JSON body of a per-package metadata response, as
far as `data.get('info', {}).get('summary', ...)` observes it. -/
inductive JsonData where
  | noInfo
  | infoNotDict
  | summaryAbsent
  | summaryNull
  | summaryNonString
  | summaryStr (s : String)
deriving DecidableEq

/-- Outcome of one per-package HTTP request: a raised exception (network
error, timeout), or a status code together with the body's parse result
(`none` models `response.json()` raising). -/
inductive HttpOutcome where
  | netErr
  | resp (status : Nat) (parse : Option JsonData)

/-- Embedding of `get_package_info` (main.py lines 14-29).  On status 200
with a nonempty string summary the result is `summary.strip()[:80]`; a
missing or falsy summary yields the placeholder; the `info`-not-a-dict
and non-string-summary cases raise inside the `try` and are caught by the
bare `except`, as is any non-200 status, parse failure or network
error — all of which also yield the placeholder.  The absent-summary
cases return the placeholder via `.get`'s default, which the code then
strips and truncates to itself. -/
def get_package_info (o : HttpOutcome) : String :=
  match o with
  | .netErr => placeholder
  | .resp status parse =>
    if status = 200 then
      match parse with
      | none => placeholder
      | some d =>
        match d with
        | .summaryStr s => if s = "" then placeholder else strTakeN (pyStrip s) 80
        | _ => placeholder
    else placeholder

/-! ## The enrichment fan-out and rendering (main.py lines 112-142) -/

/-- Embedding of the `as_completed` loop body (main.py lines 126-132):
each completed future writes its package's description into
`package_info`.  The map is built in completion order; since
`get_package_info` is a function of the package name and the response
environment, every write for a given key carries the same value. -/
def buildMap (env : String → HttpOutcome) : List String → List (String × String)
  | [] => []
  | p :: rest => (p, get_package_info (env p)) :: buildMap env rest

/-- Embedding of `package_info.get(pkg, 'No description available')`
(main.py line 136). -/
def lookupD (m : List (String × String)) (k : String) : String :=
  (m.lookup k).getD placeholder

/-- The (name, description) pairs the display loop walks (main.py lines
135-136): the ranked, truncated `packages` list in order, each name
paired with its entry in the completion-order-built map. -/
def renderedResults (kept : List String) (env : String → HttpOutcome)
    (order : List String) : List (String × String) :=
  kept.map fun p => (p, lookupD (buildMap env order) p)

/-- Embedding of the display statement (main.py lines 138-142): exact
matches carry a trailing-asterisk marker after the name. -/
def renderEntry (term pkg desc : String) : String :=
  if lowerStr pkg == lowerStr term then pkg ++ " * - " ++ desc
  else pkg ++ " - " ++ desc

/-! ## The program entry point `main` (main.py lines 78-146) -/

/-- Outcome of the one listing fetch in `search_packages` (main.py line
35): a raised exception, or a status code with the names the anchor-tag
pattern extracts from the body. -/
inductive ListingOutcome where
  | netErr
  | resp (status : Nat) (names : List String)

/-- The listing phase of `search_packages` (main.py lines 34-40 and
73-75): an exception prints an error line and yields no names; a non-200
status silently yields no names. -/
def fetchNames : ListingOutcome → List String × List String
  | .netErr => (["Error searching packages"], [])
  | .resp st names => ([], if st = 200 then names else [])

/-- Observable result of one program run: the printed lines, the process
exit code, and the package names for which a metadata lookup was
issued. -/
structure RunResult where
  out : List String
  exitCode : Nat
  lookups : List String
deriving DecidableEq

/-- Embedding of `main` after argument parsing (main.py lines 107-142):
rank the fetched names, print "No packages found" and return (exit 0)
when nothing matched, otherwise truncate to `count`, enrich every kept
name concurrently, and render in ranked order.  Exit code is 0 on every
path through `main`. -/
def mainRun (lo : ListingOutcome) (term : String) (count : Int)
    (env : String → HttpOutcome) : RunResult :=
  let fetched := fetchNames lo
  let pkgs := rank fetched.2 term
  if pkgs = [] then
    ⟨fetched.1 ++ ["No packages found"], 0, []⟩
  else
    let kept := pySliceTo pkgs count
    ⟨fetched.1 ++ (renderedResults kept env kept).map (fun e => renderEntry term e.1 e.2),
      0, kept⟩

/-- Embedding of the argparse surface (main.py lines 91-104): the
positional `search_terms` has `nargs='+'`, so parsing fails exactly when
no positional argument is supplied; any supplied strings, including
whitespace-only ones, are accepted. -/
def parseArgs (ts : List String) : Option (List String) :=
  if ts = [] then none else some ts

/-- The usage line argparse prints on a malformed invocation. -/
def usageLine : String := "usage: pipsearch"

/-- Whole-program run: argparse rejects an empty argument list with usage
text and exit code 2; otherwise `main` proceeds on the space-joined
query. -/
def progRun (ts : List String) (lo : ListingOutcome) (count : Int)
    (env : String → HttpOutcome) : RunResult :=
  match parseArgs ts with
  | none => ⟨[usageLine], 2, []⟩
  | some ts' => mainRun lo (joinSpaces ts') count env

/-! ## Spec-side definitions, for refinement comparisons only -/

/-- Spec's multi-word match count, modelled from the spec's words: the
number of DISTINCT query words occurring in the lowercased name ("match
count = number of distinct query words that are substrings of its
lowercased name").  Compare with `score`, which counts occurrences in the
word list with multiplicity. -/
def distinctScore (ws : List String) (pkg : String) : Nat :=
  (ws.dedup.filter fun w => subList w.data (lowerStr pkg).data).length

/-- Spec's multi-word ordering, modelled from the spec's words:
descending distinct-word match count, ties by ascending lowercased
name. -/
def claimMultiLe (ws : List String) (a b : String) : Bool :=
  decide (distinctScore ws b < distinctScore ws a) ||
    ((distinctScore ws a == distinctScore ws b) &&
      lexLe (lowerStr a).data (lowerStr b).data)

/-- Spec's single-word ordering, modelled from the spec's words:
ascending, case-insensitive. -/
def ciLeB (a b : String) : Bool := lexLe (lowerStr a).data (lowerStr b).data

/-- Adjacent-pair sortedness check for a Boolean comparator: any list
sorted with respect to the comparator satisfies it. -/
def sortedByB (le : String → String → Bool) : List String → Bool
  | [] => true
  | [_] => true
  | a :: b :: rest => le a b && sortedByB le (b :: rest)

/-- A string is pure whitespace when it has no non-whitespace character
(the empty string included). -/
def spaceOnly (s : String) : Bool := s.data.all Char.isWhitespace

/-! ## Order lemmas for the comparators -/

theorem lexLe_total : ∀ a b : List Char, lexLe a b = true ∨ lexLe b a = true
  | [], _ => Or.inl rfl
  | _ :: _, [] => Or.inr rfl
  | a :: as, b :: bs => by
    rcases lt_trichotomy a b with h | h | h
    · left; simp [lexLe, h]
    · subst h
      rcases lexLe_total as bs with h' | h'
      · left; simp [lexLe, h']
      · right; simp [lexLe, h']
    · right; simp [lexLe, h]

theorem lexLe_trans : ∀ {a b c : List Char},
    lexLe a b = true → lexLe b c = true → lexLe a c = true
  | [], _, _, _, _ => rfl
  | _ :: _, [], _, h1, _ => by simp [lexLe] at h1
  | _ :: _, _ :: _, [], _, h2 => by simp [lexLe] at h2
  | x :: xs, y :: ys, z :: zs, h1, h2 => by
    rcases lt_trichotomy x y with hxy | hxy | hxy
    · rcases lt_trichotomy y z with hyz | hyz | hyz
      · simp [lexLe, lt_trans hxy hyz]
      · subst hyz; simp [lexLe, hxy]
      · simp [lexLe, hyz, not_lt_of_gt hyz] at h2
    · subst hxy
      rcases lt_trichotomy x z with hyz | hyz | hyz
      · simp [lexLe, hyz]
      · subst hyz
        simp only [lexLe, lt_irrefl, if_false] at h1 h2 ⊢
        exact lexLe_trans h1 h2
      · simp [lexLe, hyz, not_lt_of_gt hyz] at h2
    · simp [lexLe, hxy, not_lt_of_gt hxy] at h1

theorem pyStrLe_total (a b : String) : pyStrLe a b ∨ pyStrLe b a :=
  lexLe_total a.data b.data

theorem pyStrLe_trans {a b c : String} (h1 : pyStrLe a b) (h2 : pyStrLe b c) :
    pyStrLe a c :=
  lexLe_trans h1 h2

theorem rMulti_total (ws : List String) (a b : String) :
    rMulti ws a b ∨ rMulti ws b a := by
  rcases Nat.lt_trichotomy (score ws a) (score ws b) with h | h | h
  · right; simp [rMulti, multiLeB, h]
  · rcases lexLe_total (lowerStr a).data (lowerStr b).data with h' | h'
    · left; simp [rMulti, multiLeB, h, h']
    · right; simp [rMulti, multiLeB, h, h']
  · left; simp [rMulti, multiLeB, h]

theorem rMulti_trans (ws : List String) {a b c : String}
    (h1 : rMulti ws a b) (h2 : rMulti ws b c) : rMulti ws a c := by
  simp only [rMulti, multiLeB, Bool.or_eq_true, Bool.and_eq_true,
    decide_eq_true_eq, beq_iff_eq] at h1 h2 ⊢
  rcases h1 with h1 | ⟨h1e, h1l⟩
  · rcases h2 with h2 | ⟨h2e, _⟩
    · exact Or.inl (lt_trans h2 h1)
    · exact Or.inl (h2e ▸ h1)
  · rcases h2 with h2 | ⟨h2e, h2l⟩
    · exact Or.inl (lt_of_lt_of_eq h2 h1e.symm)
    · exact Or.inr ⟨h1e.trans h2e, lexLe_trans h1l h2l⟩

/-! ## Structural lemmas about the ranking -/

theorem matchesOf_nil (term : String) : matchesOf [] term = [] := by
  unfold matchesOf; split <;> rfl

theorem rank_nil (term : String) : rank [] term = [] := by
  have h := matchesOf_nil term
  unfold rank exactOf nonExactSorted nonExactRaw
  rw [h]
  split <;> simp [List.insertionSort]

theorem mem_rank_iff (packages : List String) (term pkg : String) :
    pkg ∈ rank packages term ↔ pkg ∈ matchesOf packages term := by
  unfold rank exactOf nonExactSorted nonExactRaw
  rw [List.mem_append]
  constructor
  · rintro (h | h)
    · exact (List.mem_filter.mp h).1
    · split at h <;>
        exact (List.mem_filter.mp (((List.perm_insertionSort _ _).mem_iff).mp h)).1
  · intro h
    by_cases he : isExact term pkg = true
    · left; exact List.mem_filter.mpr ⟨h, he⟩
    · right
      have hm : pkg ∈ (matchesOf packages term).filter fun p => !(isExact term p) :=
        List.mem_filter.mpr ⟨h, by simp [he]⟩
      split <;> exact ((List.perm_insertionSort _ _).mem_iff).mpr hm

theorem wordsOf_eq_nil_rank (packages : List String) (term : String)
    (h : wordsOf term = []) : rank packages term = [] := by
  have hm : matchesOf packages term = [] := by
    unfold matchesOf
    rw [h]
    simp [multiMatch, h]
  unfold rank exactOf nonExactSorted nonExactRaw
  rw [hm]
  split <;> simp [List.insertionSort]

theorem toLower_isWhitespace (c : Char) (h : c.isWhitespace = true) :
    (Char.toLower c).isWhitespace = true := by
  simp only [Char.isWhitespace, Bool.or_eq_true, decide_eq_true_eq] at h
  rcases h with ((h | h) | h) | h <;> subst h <;> decide

theorem splitWsAux_all_ws :
    ∀ l : List Char, (∀ c ∈ l, c.isWhitespace = true) → splitWsAux l [] = []
  | [], _ => rfl
  | c :: cs, h => by
    have hc : c.isWhitespace = true := h c (List.mem_cons_self c cs)
    simp only [splitWsAux, hc, if_true, List.isEmpty]
    exact splitWsAux_all_ws cs fun x hx => h x (List.mem_cons_of_mem c hx)

theorem wordsOf_eq_nil_of_spaceOnly (s : String) (h : spaceOnly s = true) :
    wordsOf s = [] := by
  unfold wordsOf
  have hws : splitWsAux (lowerStr s).data [] = [] := by
    apply splitWsAux_all_ws
    intro c hc
    simp only [lowerStr, List.mem_map] at hc
    obtain ⟨a, ha, rfl⟩ := hc
    apply toLower_isWhitespace
    simp only [spaceOnly, List.all_eq_true] at h
    exact h a ha
  rw [hws]
  rfl

theorem mainRun_empty (lo : ListingOutcome) (term : String) (count : Int)
    (env : String → HttpOutcome) (h : rank (fetchNames lo).2 term = []) :
    mainRun lo term count env = ⟨(fetchNames lo).1 ++ ["No packages found"], 0, []⟩ := by
  unfold mainRun
  simp [h]

theorem lookup_buildMap (env : String → HttpOutcome) (p : String) :
    ∀ l : List String, (buildMap env l).lookup p =
      if p ∈ l then some (get_package_info (env p)) else none
  | [] => by simp [buildMap]
  | q :: rest => by
    by_cases h : p = q
    · subst h; simp [buildMap, List.lookup]
    · have hb : (p == q) = false := by simp [h]
      simp [buildMap, List.lookup, hb, h, lookup_buildMap env p rest]

/-! ## Claim C3 -/

/-- C3: for every listing and query, the ranked sequence equals the exact
bucket concatenated with the sorted non-exact bucket; the exact bucket is
a sublist of the source listing (encounter order, never re-sorted) and
contains precisely the candidates whose lowercased name equals the
lowercased query (`term` being the space-joined query string). -/
theorem ranked_is_exact_then_sorted (listing : List String) (term : String) :
    rank listing term = exactOf listing term ++ nonExactSorted listing term
    ∧ (exactOf listing term).Sublist listing
    ∧ ∀ pkg, pkg ∈ exactOf listing term ↔
        pkg ∈ matchesOf listing term ∧ lowerStr pkg = lowerStr term := by
  refine ⟨rfl, ?_, ?_⟩
  · have h1 : (exactOf listing term).Sublist (matchesOf listing term) :=
      List.filter_sublist _
    have h2 : (matchesOf listing term).Sublist listing := by
      unfold matchesOf; split <;> exact List.filter_sublist _
    exact h1.trans h2
  · intro pkg
    unfold exactOf isExact
    rw [List.mem_filter]
    simp [beq_iff_eq]

/-! ## Claim C5 -/

/-- C5: on a 200 response with a present, nonempty string summary the
description is the summary stripped of surrounding whitespace and
truncated to 80 characters; an empty or absent (or null, or otherwise
unusable) summary, any non-200 status, a network error and a parse
failure all yield exactly the fixed placeholder, in one attempt with no
retry (the embedding is a single function application). -/
theorem metadata_description_contract (s : String) (hs : s ≠ "")
    (st : Nat) (hst : st ≠ 200) (parse : Option JsonData)
    (d : JsonData) (hd : ∀ s', d ≠ JsonData.summaryStr s') :
    get_package_info (.resp 200 (some (.summaryStr s))) = strTakeN (pyStrip s) 80
    ∧ get_package_info (.resp 200 (some (.summaryStr ""))) = placeholder
    ∧ get_package_info (.resp 200 (some d)) = placeholder
    ∧ get_package_info (.resp st parse) = placeholder
    ∧ get_package_info (.resp 200 none) = placeholder
    ∧ get_package_info HttpOutcome.netErr = placeholder := by
  refine ⟨by simp [get_package_info, hs], by simp [get_package_info], ?_, ?_, rfl, rfl⟩
  · cases d with
    | summaryStr s' => exact absurd rfl (hd s')
    | _ => simp [get_package_info]
  · simp [get_package_info, hst]

/-- Witness for C5 at a concrete summary, status and body shape. -/
theorem metadata_description_contract_witness :
    get_package_info (.resp 200 (some (.summaryStr " hello "))) =
        strTakeN (pyStrip " hello ") 80
    ∧ get_package_info (.resp 200 (some (.summaryStr ""))) = placeholder
    ∧ get_package_info (.resp 200 (some JsonData.summaryAbsent)) = placeholder
    ∧ get_package_info (.resp 404 (some JsonData.summaryAbsent)) = placeholder
    ∧ get_package_info (.resp 200 none) = placeholder
    ∧ get_package_info HttpOutcome.netErr = placeholder :=
  metadata_description_contract " hello " (by decide) 404 (by decide)
    (some JsonData.summaryAbsent) JsonData.summaryAbsent (fun _ h => by cases h)

/-! ## Claim C6 -/

/-- C6: when the listing fetch raises, returns a non-200 status, or
yields no extracted names, the run exits with code 0, performs no
metadata lookups, and reports "No packages found". -/
theorem listing_failure_degrades (lo : ListingOutcome) (term : String)
    (count : Int) (env : String → HttpOutcome)
    (h : lo = ListingOutcome.netErr
      ∨ (∃ st names, lo = ListingOutcome.resp st names ∧ st ≠ 200)
      ∨ (∃ st, lo = ListingOutcome.resp st [])) :
    (mainRun lo term count env).exitCode = 0
    ∧ (mainRun lo term count env).lookups = []
    ∧ "No packages found" ∈ (mainRun lo term count env).out := by
  have hnames : (fetchNames lo).2 = [] := by
    rcases h with rfl | ⟨st, names, rfl, hst⟩ | ⟨st, rfl⟩
    · rfl
    · simp [fetchNames, hst]
    · simp [fetchNames]
  have hrank : rank (fetchNames lo).2 term = [] := by
    rw [hnames]; exact rank_nil term
  rw [mainRun_empty lo term count env hrank]
  refine ⟨rfl, rfl, ?_⟩
  simp

/-- Witness for C6 on a concrete failed fetch. -/
theorem listing_failure_degrades_witness :
    (mainRun ListingOutcome.netErr "flask" 10 (fun _ => HttpOutcome.netErr)).exitCode = 0
    ∧ (mainRun ListingOutcome.netErr "flask" 10 (fun _ => HttpOutcome.netErr)).lookups = []
    ∧ "No packages found" ∈
        (mainRun ListingOutcome.netErr "flask" 10 (fun _ => HttpOutcome.netErr)).out :=
  listing_failure_degrades ListingOutcome.netErr "flask" 10 (fun _ => HttpOutcome.netErr)
    (Or.inl rfl)

/-! ## Claim C7 -/

/-- C7: a rendered line carries the trailing-asterisk exact-match marker
exactly when the package's lowercased name equals the lowercased query;
`renderEntry` depends only on the name, description and query, never on
the rank position at which it is applied. -/
theorem marker_iff_exact (term pkg desc : String) :
    (lowerStr pkg = lowerStr term ∧ renderEntry term pkg desc = pkg ++ " * - " ++ desc)
    ∨ (lowerStr pkg ≠ lowerStr term ∧ renderEntry term pkg desc = pkg ++ " - " ++ desc) := by
  by_cases h : lowerStr pkg = lowerStr term
  · exact Or.inl ⟨h, by simp [renderEntry, h]⟩
  · exact Or.inr ⟨h, by simp [renderEntry, h]⟩

/-! ## Claim C8 -/

/-- C8: whatever order the metadata lookups complete in (any permutation
of the kept packages), the rendered sequence of (name, description)
pairs equals the ranked, truncated order with each name paired with its
own description — enrichment never permutes, drops, or cross-assigns. -/
theorem enrichment_order_independent (listing : List String) (term : String)
    (n : Int) (env : String → HttpOutcome) (order : List String)
    (h : order.Perm (pySliceTo (rank listing term) n)) :
    renderedResults (pySliceTo (rank listing term) n) env order
      = (pySliceTo (rank listing term) n).map fun p => (p, get_package_info (env p)) := by
  unfold renderedResults
  apply List.map_congr_left
  intro p hp
  have hmem : p ∈ order := h.mem_iff.mpr hp
  rw [lookupD, lookup_buildMap env p order, if_pos hmem]
  rfl

/-- Witness for C8: a two-package run whose lookups complete in reverse
order still renders in ranked order. -/
theorem enrichment_order_independent_witness :
    renderedResults (pySliceTo (rank ["aa", "ab"] "a") 2)
        (fun _ => HttpOutcome.netErr) ["ab", "aa"]
      = (pySliceTo (rank ["aa", "ab"] "a") 2).map
          (fun p => (p, get_package_info ((fun _ => HttpOutcome.netErr) p))) :=
  enrichment_order_independent ["aa", "ab"] "a" 2 (fun _ => HttpOutcome.netErr)
    ["ab", "aa"] (by decide)

/-! ## Claim C10 -/

/-- C10: `get_package_info` is total over every response shape (the bare
`except` catches malformed JSON, non-string summaries and every raised
exception), and its result never exceeds 80 characters; in the embedding
the enrichment map is built from this total function, so the fallback
branch around `future.result()` in `main` can never run. -/
theorem metadata_total_and_bounded (o : HttpOutcome) :
    (get_package_info o).length ≤ 80 := by
  have hp : placeholder.length ≤ 80 := by decide
  cases o with
  | netErr => exact hp
  | resp st parse =>
    simp only [get_package_info]
    split
    · cases parse with
      | none => exact hp
      | some d =>
        cases d with
        | summaryStr s =>
          show (if s = "" then placeholder else strTakeN (pyStrip s) 80).length ≤ 80
          split
          · exact hp
          · have h80 : (strTakeN (pyStrip s) 80).length = ((pyStrip s).data.take 80).length :=
              rfl
            rw [h80, List.length_take]
            exact min_le_left _ _
        | _ => exact hp
    · exact hp

/-! ## Claim C1 -/

/-- C1 counterexample: for the multi-word query "b b a" (a repeated
word) over listing ["za", "zb"], the code scores occurrences in the word
list with multiplicity, ranking "zb" (occurrence score 2) before "za"
(score 1), while the claim's distinct-word count ties them at 1 and
demands the alphabetical order ["za", "zb"]; the output has no exact
matches, so the whole output should be ordered by the claimed key, and it
is not. -/
theorem multi_word_distinct_count_refuted :
    rank ["za", "zb"] "b b a" = ["zb", "za"]
    ∧ exactOf ["za", "zb"] "b b a" = []
    ∧ sortedByB (claimMultiLe (wordsOf "b b a")) (rank ["za", "zb"] "b b a") = false := by
  refine ⟨by decide, by decide, by decide⟩

/-- C1 (amended): for every listing and multi-word query, a package is a
candidate exactly when its lowercased form contains at least one query
word (logical OR), and the non-exact candidates are ordered by
(descending match count, ascending lowercased name) where the match
count counts query-word occurrences WITH MULTIPLICITY over the split
word list (for queries with pairwise-distinct words this equals the
distinct-word count); the django-rest example ranks as the claim
states. -/
theorem multi_word_or_and_ranking (listing : List String) (term : String)
    (h : 2 ≤ (wordsOf term).length) :
    (∀ pkg, pkg ∈ rank listing term ↔
        pkg ∈ listing ∧ (wordsOf term).any (fun w => subList w.data (lowerStr pkg).data) = true)
    ∧ List.Sorted (rMulti (wordsOf term)) (nonExactSorted listing term)
    ∧ rank ["django-rest-framework", "django", "rest-client", "flask"] "django rest" =
        ["django-rest-framework", "django", "rest-client"] := by
  have hne : ¬ (wordsOf term).length = 1 := by omega
  refine ⟨?_, ?_, by decide⟩
  · intro pkg
    rw [mem_rank_iff]
    unfold matchesOf
    rw [if_neg hne, List.mem_filter]
    simp [multiMatch]
  · unfold nonExactSorted
    rw [if_pos (by omega : 1 < (wordsOf term).length)]
    haveI : IsTotal String (rMulti (wordsOf term)) := ⟨rMulti_total (wordsOf term)⟩
    haveI : IsTrans String (rMulti (wordsOf term)) := ⟨fun _ _ _ => rMulti_trans (wordsOf term)⟩
    exact List.sorted_insertionSort _ _

/-- Witness for the amended C1 on the spec's own django-rest example. -/
theorem multi_word_or_and_ranking_witness :
    ("django" ∈ rank ["django-rest-framework", "django", "rest-client", "flask"] "django rest" ↔
        "django" ∈ ["django-rest-framework", "django", "rest-client", "flask"]
          ∧ (wordsOf "django rest").any
              (fun w => subList w.data (lowerStr "django").data) = true)
    ∧ rank ["django-rest-framework", "django", "rest-client", "flask"] "django rest" =
        ["django-rest-framework", "django", "rest-client"] :=
  ⟨(multi_word_or_and_ranking ["django-rest-framework", "django", "rest-client", "flask"]
      "django rest" (by decide)).1 "django",
    (multi_word_or_and_ranking ["django-rest-framework", "django", "rest-client", "flask"]
      "django rest" (by decide)).2.2⟩

/-! ## Claim C2 -/

/-- C2 counterexample: for the single-word query "a" over listing
["Zab", "aab"] (no exact matches), the code's plain `sorted` compares raw
names by code point, putting "Zab" (uppercase Z, code 90) before "aab"
(code 97); the claimed case-insensitive order would put "aab" first. -/
theorem single_word_ci_sort_refuted :
    rank ["Zab", "aab"] "a" = ["Zab", "aab"]
    ∧ exactOf ["Zab", "aab"] "a" = []
    ∧ sortedByB ciLeB (rank ["Zab", "aab"] "a") = false := by
  refine ⟨by decide, by decide, by decide⟩

/-- C2 (amended): for every listing and single-word query, the non-exact
candidates (those whose lowercased name contains the query word) are
sorted ascending by the raw name under Python's case-SENSITIVE
code-point order, not case-insensitively. -/
theorem single_word_sort_case_sensitive (listing : List String) (term : String)
    (h : (wordsOf term).length = 1) :
    List.Sorted pyStrLe (nonExactSorted listing term)
    ∧ ∀ pkg, pkg ∈ rank listing term ↔
        pkg ∈ listing ∧ subList ((wordsOf term).headD "").data (lowerStr pkg).data = true := by
  constructor
  · unfold nonExactSorted
    rw [if_neg (by omega : ¬ 1 < (wordsOf term).length)]
    haveI : IsTotal String pyStrLe := ⟨pyStrLe_total⟩
    haveI : IsTrans String pyStrLe := ⟨fun _ _ _ => pyStrLe_trans⟩
    exact List.sorted_insertionSort _ _
  · intro pkg
    rw [mem_rank_iff]
    unfold matchesOf
    rw [if_pos h, List.mem_filter]
    simp [singleMatch]

/-- Witness for the amended C2 on the spec's own requests example. -/
theorem single_word_sort_case_sensitive_witness :
    List.Sorted pyStrLe (nonExactSorted ["requests", "requests-toolbelt", "flask"] "requests")
    ∧ ("flask" ∈ rank ["requests", "requests-toolbelt", "flask"] "requests" ↔
        "flask" ∈ ["requests", "requests-toolbelt", "flask"]
          ∧ subList ((wordsOf "requests").headD "").data (lowerStr "flask").data = true) :=
  ⟨(single_word_sort_case_sensitive ["requests", "requests-toolbelt", "flask"] "requests"
      (by decide)).1,
    (single_word_sort_case_sensitive ["requests", "requests-toolbelt", "flask"] "requests"
      (by decide)).2 "flask"⟩

/-! ## Claim C4 -/

/-- C4 counterexample: the CLI count is a Python `int` and the code
truncates with `packages[:count]`; at the accepted value `count = -1`
over a two-candidate ranking the retained sequence has length 1, not
`min(k, n) = -1`, and increasing the count from -1 to 0 SHRINKS the
result (the result for -1 is not a prefix of the result for 0). -/
theorem truncation_negative_count_refuted :
    rank ["aa", "ab"] "a" = ["aa", "ab"]
    ∧ pySliceTo (rank ["aa", "ab"] "a") (-1) = ["aa"]
    ∧ ((pySliceTo (rank ["aa", "ab"] "a") (-1)).length : Int) ≠
        min ((rank ["aa", "ab"] "a").length : Int) (-1)
    ∧ ¬ pySliceTo (rank ["aa", "ab"] "a") (-1) <+: pySliceTo (rank ["aa", "ab"] "a") 0 := by
  refine ⟨by decide, by decide, by decide, by decide⟩

/-- C4 (amended): for every listing, query and NONNEGATIVE requested
count `n`, the retained sequence has length `min(k, n)`, is a prefix of
the full ranking, and growing the count only extends the result; for a
negative count Python's slice instead keeps the first `max(k + n, 0)`
entries. -/
theorem truncation_min_and_monotone (listing : List String) (term : String)
    (n m : Int) (hn : 0 ≤ n) (hm : n ≤ m) :
    (pySliceTo (rank listing term) n).length = min (rank listing term).length n.toNat
    ∧ pySliceTo (rank listing term) n <+: rank listing term
    ∧ pySliceTo (rank listing term) n <+: pySliceTo (rank listing term) m := by
  have hm0 : 0 ≤ m := le_trans hn hm
  unfold pySliceTo
  rw [if_pos hn, if_pos hm0]
  refine ⟨?_, List.take_prefix _ _, ?_⟩
  · rw [List.length_take, Nat.min_comm]
  · have hnm : n.toNat ≤ m.toNat := Int.toNat_le_toNat hm
    have h2 : (rank listing term).take n.toNat =
        ((rank listing term).take m.toNat).take n.toNat := by
      rw [List.take_take, Nat.min_eq_left hnm]
    rw [h2]
    exact List.take_prefix _ _

/-- Witness for the amended C4 at counts 1 and 2 over a two-candidate
ranking. -/
theorem truncation_min_and_monotone_witness :
    (pySliceTo (rank ["aa", "ab"] "a") 1).length =
        min (rank ["aa", "ab"] "a").length (Int.toNat 1)
    ∧ pySliceTo (rank ["aa", "ab"] "a") 1 <+: rank ["aa", "ab"] "a"
    ∧ pySliceTo (rank ["aa", "ab"] "a") 1 <+: pySliceTo (rank ["aa", "ab"] "a") 2 :=
  truncation_min_and_monotone ["aa", "ab"] "a" 1 2 (by decide) (by decide)

/-! ## Claim C9 -/

/-- C9 counterexample: argparse only rejects an ABSENT query; a supplied
pure-whitespace argument such as " " is accepted, flows through the
search stage, matches nothing, and the program prints "No packages
found" and exits 0 — not the claimed usage error with non-zero exit
before ranking. -/
theorem whitespace_query_not_rejected :
    spaceOnly (joinSpaces [" "]) = true
    ∧ progRun [" "] (ListingOutcome.resp 200 ["flask"]) 10 (fun _ => HttpOutcome.netErr) =
        ⟨["No packages found"], 0, []⟩
    ∧ (progRun [" "] (ListingOutcome.resp 200 ["flask"]) 10
        (fun _ => HttpOutcome.netErr)).exitCode = 0 := by
  refine ⟨by decide, by decide, by decide⟩

/-- C9 (amended): only the ABSENCE of search terms is a usage error
(non-zero exit, usage text); a present but pure-whitespace query is
accepted by argument parsing, reaches the search stage, yields no
candidates on any listing, and the run prints "No packages found",
performs no lookups and exits 0. -/
theorem whitespace_query_flows_to_empty (ts : List String) (lo : ListingOutcome)
    (count : Int) (env : String → HttpOutcome)
    (hts : ts ≠ []) (hws : spaceOnly (joinSpaces ts) = true) :
    (∀ us : List String, parseArgs us = none ↔ us = [])
    ∧ (progRun ts lo count env).exitCode = 0
    ∧ (progRun ts lo count env).lookups = []
    ∧ "No packages found" ∈ (progRun ts lo count env).out := by
  have hw : wordsOf (joinSpaces ts) = [] := wordsOf_eq_nil_of_spaceOnly _ hws
  have hprog : progRun ts lo count env = mainRun lo (joinSpaces ts) count env := by
    unfold progRun parseArgs
    rw [if_neg hts]
  have hrank : rank (fetchNames lo).2 (joinSpaces ts) = [] :=
    wordsOf_eq_nil_rank _ _ hw
  rw [hprog, mainRun_empty lo (joinSpaces ts) count env hrank]
  refine ⟨?_, rfl, rfl, by simp⟩
  intro us
  unfold parseArgs
  by_cases h : us = [] <;> simp [h]

/-- Witness for the amended C9 on the single whitespace argument " "
against a listing that does contain packages. -/
theorem whitespace_query_flows_to_empty_witness :
    (parseArgs [] = none ↔ ([] : List String) = [])
    ∧ (progRun [" "] (ListingOutcome.resp 200 ["flask"]) 10
        (fun _ => HttpOutcome.netErr)).exitCode = 0
    ∧ (progRun [" "] (ListingOutcome.resp 200 ["flask"]) 10
        (fun _ => HttpOutcome.netErr)).lookups = []
    ∧ "No packages found" ∈ (progRun [" "] (ListingOutcome.resp 200 ["flask"]) 10
        (fun _ => HttpOutcome.netErr)).out :=
  ⟨(whitespace_query_flows_to_empty [" "] (ListingOutcome.resp 200 ["flask"]) 10
      (fun _ => HttpOutcome.netErr) (by decide) (by decide)).1 [],
    (whitespace_query_flows_to_empty [" "] (ListingOutcome.resp 200 ["flask"]) 10
      (fun _ => HttpOutcome.netErr) (by decide) (by decide)).2⟩
